import Mathlib

/-!
Verification of the claude-drive coordination core against its sources.

The development shallowly embeds the file-based lock store
(`src/scripts/lock.py`), the task board (`src/scripts/board.py`) and the
fleet-supervisor pieces of `src/scripts/dashboard.py`:

* a locks directory is an association list from file name (the task id:
  the file `{task_id}.lock`) to the JSON record stored in that file;
* a tasks or messages directory is the list of records produced by
  enumerating the directory (`glob`), in enumeration order;
* timestamps are integers (seconds); the wall clock is passed explicitly
  as a `now` argument wherever the Python calls `datetime.now`;
* fresh ids (Python's `uuid4().hex[:8]`) are passed explicitly;
* Python exceptions become `Except`-style results paired with the
  unchanged directory state.
-/

namespace ClaudeDrive

/-- The JSON body of a `{task_id}.lock` file, written by `acquire_lock`. -/
structure LockRecord where
  agent_id : String
  task_id : String
  acquired_at : Int
  last_heartbeat : Int
  deriving Repr, DecidableEq

/-- A locks directory: file name (task id) paired with the file's record. -/
abbrev LockStore := List (String × LockRecord)

/-- Reading the lock file for `task_id` (`_read_lock` of `_lock_path`):
`none` when the file does not exist. -/
def lookupLock (s : LockStore) (task_id : String) : Option LockRecord :=
  (s.find? (fun p => p.1 = task_id)).map (fun p => p.2)

/-- Deleting the lock file for `task_id` (`Path.unlink`). -/
def eraseLock (s : LockStore) (task_id : String) : LockStore :=
  s.filter (fun p => p.1 ≠ task_id)

/-- Overwriting the lock file for `task_id` (`Path.write_text`). -/
def writeLock (s : LockStore) (task_id : String) (r : LockRecord) : LockStore :=
  if (s.find? (fun p => p.1 = task_id)).isSome then
    s.map (fun p => if p.1 = task_id then (task_id, r) else p)
  else
    s ++ [(task_id, r)]

/-- `lock.acquire_lock`: return `False` if the lock file exists, else create
it with `acquired_at = last_heartbeat = now` and return `True`. -/
def acquire_lock (s : LockStore) (task_id agent_id : String) (now : Int) :
    Bool × LockStore :=
  match lookupLock s task_id with
  | some _ => (false, s)
  | none =>
      (true, writeLock s task_id
        { agent_id := agent_id, task_id := task_id,
          acquired_at := now, last_heartbeat := now })

/-- `lock.release_lock`: delete the lock file only if owned by `agent_id`. -/
def release_lock (s : LockStore) (task_id agent_id : String) :
    Bool × LockStore :=
  match lookupLock s task_id with
  | none => (false, s)
  | some data =>
      if data.agent_id ≠ agent_id then (false, s)
      else (true, eraseLock s task_id)

/-- `lock.refresh_lock`: update `last_heartbeat` if owned by `agent_id`. -/
def refresh_lock (s : LockStore) (task_id agent_id : String) (now : Int) :
    Bool × LockStore :=
  match lookupLock s task_id with
  | none => (false, s)
  | some data =>
      if data.agent_id ≠ agent_id then (false, s)
      else (true, writeLock s task_id { data with last_heartbeat := now })

/-- `lock.is_locked`. -/
def is_locked (s : LockStore) (task_id : String) : Option LockRecord :=
  lookupLock s task_id

/-- `lock.cleanup_stale`: delete every lock whose `last_heartbeat` is older
than `max_age_seconds`; return the deleted records' `task_id`s. The loop
visits the files in enumeration order. -/
def cleanup_stale (s : LockStore) (now max_age_seconds : Int) :
    List String × LockStore :=
  match s with
  | [] => ([], [])
  | (k, data) :: rest =>
      let (cleaned, rest') := cleanup_stale rest now max_age_seconds
      if now - data.last_heartbeat > max_age_seconds then
        (data.task_id :: cleaned, rest')
      else
        (cleaned, (k, data) :: rest')

/-- One operation of the lock-store CLI surface, with its clock argument. -/
inductive LockOp where
  | acq (task_id agent_id : String) (now : Int)
  | rel (task_id agent_id : String)
  | ref (task_id agent_id : String) (now : Int)
  | cleanup (now max_age_seconds : Int)
  deriving Repr, DecidableEq

/-- The state reached after one lock-store operation. -/
def lockStep (s : LockStore) : LockOp → LockStore
  | .acq t a n => (acquire_lock s t a n).2
  | .rel t a => (release_lock s t a).2
  | .ref t a n => (refresh_lock s t a n).2
  | .cleanup n m => (cleanup_stale s n m).2

/-- A sequential run of lock-store operations. -/
def runLockOps (s : LockStore) : List LockOp → LockStore
  | [] => s
  | op :: ops => runLockOps (lockStep s op) ops

/-! ### Lock-store lemmas -/

theorem lookupLock_map_replace (s : LockStore) (k : String) (r : LockRecord) :
    lookupLock (s.map (fun p => if p.1 = k then (k, r) else p)) k
      = (lookupLock s k).map (fun _ => r) := by
  induction s with
  | nil => simp [lookupLock]
  | cons p rest ih =>
    by_cases hp : p.1 = k
    · simp [lookupLock, List.find?, hp]
    · simpa [lookupLock, List.find?, hp] using ih

theorem lookupLock_map_replace_ne (s : LockStore) (k k' : String) (r : LockRecord)
    (h : k' ≠ k) :
    lookupLock (s.map (fun p => if p.1 = k then (k, r) else p)) k'
      = lookupLock s k' := by
  induction s with
  | nil => simp [lookupLock]
  | cons p rest ih =>
    by_cases hp : p.1 = k
    · simpa [lookupLock, List.find?, hp, Ne.symm h] using ih
    · by_cases hp' : p.1 = k'
      · simp [lookupLock, List.find?, hp, hp', h, Ne.symm h]
      · simpa [lookupLock, List.find?, hp, hp'] using ih

theorem lookupLock_append_single (s : LockStore) (k : String) (r : LockRecord)
    (h : lookupLock s k = none) :
    lookupLock (s ++ [(k, r)]) k = some r := by
  induction s with
  | nil => simp [lookupLock, List.find?]
  | cons p rest ih =>
    by_cases hp : p.1 = k
    · simp [lookupLock, List.find?, hp] at h
    · simp only [lookupLock, List.find?, hp] at h ⊢
      simpa [lookupLock, List.find?, hp] using
        ih (by simpa [lookupLock, List.find?, hp] using h)

theorem lookupLock_append_single_ne (s : LockStore) (k k' : String)
    (r : LockRecord) (h : k' ≠ k) :
    lookupLock (s ++ [(k, r)]) k' = lookupLock s k' := by
  induction s with
  | nil => simp [lookupLock, List.find?, Ne.symm h]
  | cons p rest ih =>
    by_cases hp' : p.1 = k'
    · simp [lookupLock, List.find?, hp']
    · simpa [lookupLock, List.find?, hp'] using ih

theorem isSome_find?_eq (s : LockStore) (k : String) :
    (s.find? (fun p => p.1 = k)).isSome = (lookupLock s k).isSome := by
  simp [lookupLock]

theorem lookupLock_writeLock_self (s : LockStore) (k : String) (r : LockRecord) :
    lookupLock (writeLock s k r) k = some r := by
  unfold writeLock
  split
  · next h =>
    rw [isSome_find?_eq] at h
    rcases Option.isSome_iff_exists.mp h with ⟨v, hv⟩
    rw [lookupLock_map_replace, hv]
    rfl
  · next h =>
    rw [isSome_find?_eq] at h
    exact lookupLock_append_single s k r (Option.not_isSome_iff_eq_none.mp (by simpa using h))

theorem lookupLock_writeLock_ne (s : LockStore) (k k' : String) (r : LockRecord)
    (h : k' ≠ k) : lookupLock (writeLock s k r) k' = lookupLock s k' := by
  unfold writeLock
  split
  · exact lookupLock_map_replace_ne s k k' r h
  · exact lookupLock_append_single_ne s k k' r h

theorem lookupLock_eraseLock_self (s : LockStore) (k : String) :
    lookupLock (eraseLock s k) k = none := by
  induction s with
  | nil => simp [lookupLock, eraseLock]
  | cons p rest ih =>
    by_cases hp : p.1 = k
    · simp only [eraseLock, ne_eq, decide_not] at ih
      simp [eraseLock, hp, ih]
    · simp only [eraseLock, ne_eq, decide_not] at ih
      simp [eraseLock, lookupLock, List.find?, hp, ih]

theorem lookupLock_eraseLock_ne (s : LockStore) (k k' : String) (h : k' ≠ k) :
    lookupLock (eraseLock s k) k' = lookupLock s k' := by
  induction s with
  | nil => simp [lookupLock, eraseLock]
  | cons p rest ih =>
    by_cases hp : p.1 = k
    · have hpk' : ¬p.1 = k' := by rw [hp]; exact Ne.symm h
      simpa [eraseLock, lookupLock, List.find?, hp, hpk', h, Ne.symm h] using ih
    · by_cases hp' : p.1 = k'
      · simp [eraseLock, lookupLock, List.find?, hp, hp', h, Ne.symm h]
      · simpa [eraseLock, lookupLock, List.find?, hp, hp'] using ih

theorem cleanup_stale_fst (s : LockStore) (now m : Int) :
    (cleanup_stale s now m).1
      = (s.filter (fun p => decide (now - p.2.last_heartbeat > m))).map
          (fun p => p.2.task_id) := by
  induction s with
  | nil => simp [cleanup_stale]
  | cons p rest ih =>
    by_cases hp : now - p.2.last_heartbeat > m
    · simp [cleanup_stale, hp, ih]
    · simp [cleanup_stale, hp, ih]

theorem cleanup_stale_snd (s : LockStore) (now m : Int) :
    (cleanup_stale s now m).2
      = s.filter (fun p => !decide (now - p.2.last_heartbeat > m)) := by
  induction s with
  | nil => simp [cleanup_stale]
  | cons p rest ih =>
    by_cases hp : now - p.2.last_heartbeat > m
    · simp [cleanup_stale, hp, ih]
    · simp [cleanup_stale, hp, ih]

theorem lookupLock_mem (s : LockStore) (k : String) (r : LockRecord)
    (h : lookupLock s k = some r) : (k, r) ∈ s := by
  unfold lookupLock at h
  rcases Option.map_eq_some'.mp h with ⟨p, hp, hp2⟩
  have hk : p.1 = k := by simpa using List.find?_some hp
  have hm : p ∈ s := List.mem_of_find?_eq_some hp
  have : p = (k, r) := by
    cases p
    simp_all
  rwa [this] at hm

theorem lookupLock_eq_none_of_not_mem (s : LockStore) (k : String)
    (h : k ∉ s.map Prod.fst) : lookupLock s k = none := by
  induction s with
  | nil => simp [lookupLock]
  | cons p rest ih =>
    simp only [List.map_cons, List.mem_cons, not_or] at h
    have hp : ¬p.1 = k := fun hc => h.1 hc.symm
    simpa [lookupLock, List.find?, hp] using ih h.2

theorem lookupLock_filter_none (s : LockStore) (k : String)
    (pred : String × LockRecord → Bool) (h : lookupLock s k = none) :
    lookupLock (s.filter pred) k = none := by
  induction s with
  | nil => simp [lookupLock]
  | cons p rest ih =>
    by_cases hp : p.1 = k
    · simp [lookupLock, List.find?, hp] at h
    · have h' : lookupLock rest k = none := by
        simpa [lookupLock, List.find?, hp] using h
      by_cases hpred : pred p
      · simpa [lookupLock, List.find?, hp, hpred] using ih h'
      · simpa [List.filter, hpred] using ih h'

theorem lookupLock_filter_of_nodup (s : LockStore) (k : String) (r : LockRecord)
    (pred : String × LockRecord → Bool)
    (hnd : (s.map Prod.fst).Nodup) (h : lookupLock s k = some r) :
    lookupLock (s.filter pred) k
      = if pred (k, r) then some r else none := by
  induction s with
  | nil => simp [lookupLock] at h
  | cons p rest ih =>
    by_cases hp : p.1 = k
    · have hpr : p = (k, r) := by
        cases p
        simp only [lookupLock, List.find?, hp, decide_true_eq_true] at h
        simp_all [lookupLock, List.find?]
      subst hpr
      have hnd2 : k ∉ rest.map Prod.fst ∧ (rest.map Prod.fst).Nodup := by
        rw [List.map_cons] at hnd
        exact List.nodup_cons.mp hnd
      by_cases hpred : pred (k, r)
      · simp [lookupLock, List.find?, hpred]
      · have hdrop : List.filter pred ((k, r) :: rest) = List.filter pred rest := by
          simp [List.filter, hpred]
        rw [hdrop, lookupLock_filter_none rest k pred
          (lookupLock_eq_none_of_not_mem rest k hnd2.1)]
        simp [hpred]
    · have h' : lookupLock rest k = some r := by
        simpa [lookupLock, List.find?, hp] using h
      have hnd' : (rest.map Prod.fst).Nodup :=
        (List.nodup_cons.mp (by simpa using hnd)).2
      by_cases hpred : pred p
      · simpa [lookupLock, List.find?, hp, hpred] using ih hnd' h'
      · simpa [List.filter, hpred] using ih hnd' h'

theorem lookupLock_cleanup (s : LockStore) (now m : Int) (k : String)
    (r : LockRecord) (hnd : (s.map Prod.fst).Nodup)
    (h : lookupLock s k = some r) :
    lookupLock (cleanup_stale s now m).2 k
      = if now - r.last_heartbeat > m then none else some r := by
  rw [cleanup_stale_snd]
  rw [lookupLock_filter_of_nodup s k r _ hnd h]
  by_cases hst : now - r.last_heartbeat > m <;> simp [hst]

theorem mem_cleanup_fst (s : LockStore) (now m : Int) (k : String)
    (r : LockRecord) (h : (k, r) ∈ s) (hst : now - r.last_heartbeat > m) :
    r.task_id ∈ (cleanup_stale s now m).1 := by
  rw [cleanup_stale_fst]
  exact List.mem_map_of_mem _ (List.mem_filter.mpr ⟨h, by simpa using hst⟩)

theorem lookup_lockStep_preserved (s : LockStore) (t : String) (r : LockRecord)
    (op : LockOp) (h : lookupLock s t = some r)
    (hrel : ∀ a, op ≠ .rel t a) (hcl : ∀ n m, op ≠ .cleanup n m) :
    ∃ r', lookupLock (lockStep s op) t = some r'
      ∧ r'.agent_id = r.agent_id := by
  cases op with
  | acq t' a n =>
    by_cases ht : t' = t
    · subst ht
      refine ⟨r, ?_, rfl⟩
      simp [lockStep, acquire_lock, h]
    · refine ⟨r, ?_, rfl⟩
      simp only [lockStep, acquire_lock]
      cases hl : lookupLock s t'
      · simpa [hl, lookupLock_writeLock_ne s t' t _ (Ne.symm ht)] using h
      · simpa [hl] using h
  | rel t' a =>
    by_cases ht : t' = t
    · exact absurd (ht ▸ rfl) (hrel a)
    · refine ⟨r, ?_, rfl⟩
      simp only [lockStep, release_lock]
      cases hl : lookupLock s t'
      · simpa [hl] using h
      · next data =>
        by_cases ha : data.agent_id ≠ a
        · simpa [hl, ha] using h
        · simpa [hl, ha, lookupLock_eraseLock_ne s t' t (Ne.symm ht)] using h
  | ref t' a n =>
    by_cases ht : t' = t
    · subst ht
      simp only [lockStep, refresh_lock, h]
      by_cases ha : r.agent_id ≠ a
      · exact ⟨r, by simpa [ha] using h, rfl⟩
      · exact ⟨{ r with last_heartbeat := n },
          by simp [ha, lookupLock_writeLock_self], rfl⟩
    · refine ⟨r, ?_, rfl⟩
      simp only [lockStep, refresh_lock]
      cases hl : lookupLock s t'
      · simpa [hl] using h
      · next data =>
        by_cases ha : data.agent_id ≠ a
        · simpa [hl, ha] using h
        · simpa [hl, ha, lookupLock_writeLock_ne s t' t _ (Ne.symm ht)] using h
  | cleanup n m => exact absurd rfl (hcl n m)

theorem lock_survives_run (t : String) :
    ∀ (ops : List LockOp) (s : LockStore) (r : LockRecord),
      lookupLock s t = some r →
      (∀ op ∈ ops, (∀ a, op ≠ .rel t a) ∧ (∀ n m, op ≠ .cleanup n m)) →
      ∃ r', lookupLock (runLockOps s ops) t = some r'
        ∧ r'.agent_id = r.agent_id := by
  intro ops
  induction ops with
  | nil => exact fun s r h _ => ⟨r, h, rfl⟩
  | cons op ops ih =>
    intro s r h hops
    rcases lookup_lockStep_preserved s t r op h
      (hops op (List.mem_cons_self op ops)).1
      (hops op (List.mem_cons_self op ops)).2 with ⟨r', hr', hown⟩
    rcases ih (lockStep s op) r' hr'
      (fun o ho => hops o (List.mem_cons_of_mem op ho)) with ⟨r'', hr'', hown'⟩
    exact ⟨r'', hr'', hown'.trans hown⟩

/-! ### Claim C1 -/

/-- C1: `acquire_lock` returns true iff no lock file for the task exists at
the moment of the call; while a lock for `t` exists every further acquire
for `t` returns false; the lock for `t` can only disappear through a
successful release by its owner or through a `cleanup_stale` call that
reaps it (the record being stale and `t` being reported in the cleaned
list); and along any sequential run of lock-store operations containing no
release for `t` and no cleanup, the lock survives with its owner unchanged
and every acquire for `t` keeps returning false. -/
theorem acquire_mutual_exclusion (s : LockStore) (t : String)
    (hwf : ∀ p ∈ s, p.2.task_id = p.1)
    (hnd : (s.map Prod.fst).Nodup) :
    (∀ a n, ((acquire_lock s t a n).1 = true ↔ lookupLock s t = none))
    ∧ (∀ r, lookupLock s t = some r →
        ∀ a n, (acquire_lock s t a n).1 = false)
    ∧ (∀ r op, lookupLock s t = some r →
        lookupLock (lockStep s op) t = none →
        (op = .rel t r.agent_id ∧ (release_lock s t r.agent_id).1 = true)
        ∨ (∃ n m, op = .cleanup n m ∧ n - r.last_heartbeat > m
            ∧ t ∈ (cleanup_stale s n m).1))
    ∧ (∀ ops r, lookupLock s t = some r →
        (∀ op ∈ ops, (∀ a, op ≠ .rel t a) ∧ (∀ n m, op ≠ .cleanup n m)) →
        ∃ r', lookupLock (runLockOps s ops) t = some r'
          ∧ r'.agent_id = r.agent_id
          ∧ ∀ a n, (acquire_lock (runLockOps s ops) t a n).1 = false) := by
  have hacq : ∀ (s' : LockStore) (a : String) (n : Int),
      (acquire_lock s' t a n).1 = true ↔ lookupLock s' t = none := by
    intro s' a n
    unfold acquire_lock
    cases hl : lookupLock s' t <;> simp [hl]
  have hacq_false : ∀ (s' : LockStore) (r : LockRecord),
      lookupLock s' t = some r → ∀ a n, (acquire_lock s' t a n).1 = false := by
    intro s' r hl a n
    unfold acquire_lock
    simp [hl]
  refine ⟨hacq s, fun r h => hacq_false s r h, ?_, ?_⟩
  · intro r op h hnone
    cases op with
    | acq t' a n =>
      exfalso
      rcases lookup_lockStep_preserved s t r (.acq t' a n) h
        (by intro a hc; cases hc) (by intro n m hc; cases hc) with ⟨r', hr', _⟩
      rw [hr'] at hnone
      cases hnone
    | rel t' a =>
      by_cases ht : t' = t
      · subst ht
        left
        simp only [lockStep, release_lock, h] at hnone
        by_cases ha : r.agent_id ≠ a
        · rw [if_pos ha] at hnone
          rw [h] at hnone
          cases hnone
        · push_neg at ha
          subst ha
          refine ⟨rfl, ?_⟩
          simp [release_lock, h]
      · exfalso
        rcases lookup_lockStep_preserved s t r (.rel t' a) h
          (by intro a' hc; cases hc; exact ht rfl)
          (by intro n m hc; cases hc) with ⟨r', hr', _⟩
        rw [hr'] at hnone
        cases hnone
    | ref t' a n =>
      exfalso
      rcases lookup_lockStep_preserved s t r (.ref t' a n) h
        (by intro a' hc; cases hc) (by intro n' m' hc; cases hc) with ⟨r', hr', _⟩
      rw [hr'] at hnone
      cases hnone
    | cleanup n m =>
      right
      refine ⟨n, m, rfl, ?_, ?_⟩
      · by_contra hst
        simp only [lockStep] at hnone
        rw [lookupLock_cleanup s n m t r hnd h, if_neg hst] at hnone
        cases hnone
      · have hst : n - r.last_heartbeat > m := by
          by_contra hst
          simp only [lockStep] at hnone
          rw [lookupLock_cleanup s n m t r hnd h, if_neg hst] at hnone
          cases hnone
        have hmem : (t, r) ∈ s := lookupLock_mem s t r h
        have : r.task_id = t := hwf (t, r) hmem
        exact this ▸ mem_cleanup_fst s n m t r hmem hst
  · intro ops r h hops
    rcases lock_survives_run t ops s r h hops with ⟨r', hr', hown⟩
    exact ⟨r', hr', hown, hacq_false (runLockOps s ops) r' hr'⟩

/-- Witness for C1 at a concrete one-lock store. -/
theorem acquire_mutual_exclusion_witness :
    (acquire_lock
      [("t1", ⟨"a1", "t1", 0, 0⟩)] "t1" "a2" 5).1 = false :=
  (acquire_mutual_exclusion [("t1", ⟨"a1", "t1", 0, 0⟩)] "t1"
    (by decide) (by decide)).2.1 ⟨"a1", "t1", 0, 0⟩ (by decide) "a2" 5

/-! ### Claim C5 -/

/-- C5: `cleanup_stale` returns exactly the `task_id`s of the lock records
whose `last_heartbeat` is older than `max_age_seconds`, removes exactly
those lock files, and keeps every other lock file (in particular a lock
with any `acquired_at` whatsoever but a fresh `last_heartbeat` is kept:
staleness is judged by `last_heartbeat` only). -/
theorem cleanup_stale_spec (s : LockStore) (now m : Int) :
    (cleanup_stale s now m).1
      = (s.filter (fun p => decide (now - p.2.last_heartbeat > m))).map
          (fun p => p.2.task_id)
    ∧ (cleanup_stale s now m).2
      = s.filter (fun p => !decide (now - p.2.last_heartbeat > m))
    ∧ (∀ k r, (k, r) ∈ s → ¬(now - r.last_heartbeat > m) →
        (k, r) ∈ (cleanup_stale s now m).2) := by
  refine ⟨cleanup_stale_fst s now m, cleanup_stale_snd s now m, ?_⟩
  intro k r hmem hfresh
  rw [cleanup_stale_snd]
  exact List.mem_filter.mpr ⟨hmem, by simpa using hfresh⟩

/-- Witness for C5: a lock acquired arbitrarily long ago but with a fresh
heartbeat survives a cleanup that reaps a stale one. -/
theorem cleanup_stale_spec_witness :
    ("t1", (⟨"a1", "t1", -100000, 7000⟩ : LockRecord)) ∈
      (cleanup_stale
        [("t1", ⟨"a1", "t1", -100000, 7000⟩), ("t2", ⟨"a2", "t2", 7100, 0⟩)]
        7200 7200).2 :=
  (cleanup_stale_spec
    [("t1", ⟨"a1", "t1", -100000, 7000⟩), ("t2", ⟨"a2", "t2", 7100, 0⟩)]
    7200 7200).2.2 "t1" ⟨"a1", "t1", -100000, 7000⟩ (by decide) (by decide)

/-! ### Claim C2: interleaved acquires

`acquire_lock` performs two separate filesystem accesses: the
`lock_file.exists()` test and the `lock_file.write_text(...)` create.
The micro-step model below splits the call at exactly these two points so
that two concurrent calls can be interleaved. -/

/-- Program counter of one in-flight `acquire_lock` call. -/
inductive AcqPC where
  | start
  | checked (ok : Bool)
  | done (ret : Bool)
  deriving Repr, DecidableEq

/-- One micro-step of `acquire_lock task_id agent_id` from the given
program point: from `start`, run the `exists()` check; from `checked`,
either `write_text` the lock file and return `True`, or return `False`. -/
def acqStep (task_id agent_id : String) (now : Int) :
    AcqPC → LockStore → AcqPC × LockStore
  | .start, s => (.checked (lookupLock s task_id).isNone, s)
  | .checked ok, s =>
      if ok then
        (.done true, writeLock s task_id
          { agent_id := agent_id, task_id := task_id,
            acquired_at := now, last_heartbeat := now })
      else (.done false, s)
  | .done r, s => (.done r, s)

/-- Running the two micro-steps back to back is exactly `acquire_lock`. -/
theorem acqStep_twice_eq_acquire_lock (s : LockStore) (t a : String) (n : Int) :
    acqStep t a n (acqStep t a n .start s).1 (acqStep t a n .start s).2
      = (.done (acquire_lock s t a n).1, (acquire_lock s t a n).2) := by
  cases hl : lookupLock s t <;> simp [acqStep, acquire_lock, hl]

/-- Two concurrent `acquire_lock` calls on the same task: the shared locks
directory plus each call's program counter. -/
structure TwoAcq where
  store : LockStore
  pc1 : AcqPC
  pc2 : AcqPC
  deriving Repr, DecidableEq

/-- Let the scheduled process (true = first caller) take one micro-step. -/
def twoStep (t a1 a2 : String) (n1 n2 : Int) (c : TwoAcq) (who : Bool) :
    TwoAcq :=
  if who then
    { c with pc1 := (acqStep t a1 n1 c.pc1 c.store).1,
             store := (acqStep t a1 n1 c.pc1 c.store).2 }
  else
    { c with pc2 := (acqStep t a2 n2 c.pc2 c.store).1,
             store := (acqStep t a2 n2 c.pc2 c.store).2 }

/-- Run the two interleaved calls under a schedule. -/
def runTwo (t a1 a2 : String) (n1 n2 : Int) (sched : List Bool)
    (c : TwoAcq) : TwoAcq :=
  sched.foldl (twoStep t a1 a2 n1 n2) c

/-- C2 counterexample: under the interleaving check₁, check₂, write₁,
write₂ from an empty locks directory, BOTH concurrent `acquire_lock`
calls return `True` — the check-then-write sequence is not an atomic
test-and-create. -/
theorem acquire_not_atomic_counterexample :
    (runTwo "t1" "a1" "a2" 0 0 [true, false, true, false]
        ⟨[], .start, .start⟩).pc1 = .done true
    ∧ (runTwo "t1" "a1" "a2" 0 0 [true, false, true, false]
        ⟨[], .start, .start⟩).pc2 = .done true := by
  constructor <;> rfl

/-- C2 amended: when the two `acquire_lock` calls do not interleave (the
second starts only after the first has finished), at most one of them
returns true: a successful first acquire makes the second return false. -/
theorem acquire_sequential_at_most_one (s : LockStore) (t a1 a2 : String)
    (n1 n2 : Int) (h : (acquire_lock s t a1 n1).1 = true) :
    (acquire_lock (acquire_lock s t a1 n1).2 t a2 n2).1 = false := by
  cases hl : lookupLock s t with
  | some r =>
    unfold acquire_lock at h
    rw [hl] at h
    cases h
  | none =>
    have hs : (acquire_lock s t a1 n1).2
        = writeLock s t
            { agent_id := a1, task_id := t,
              acquired_at := n1, last_heartbeat := n1 } := by
      unfold acquire_lock
      rw [hl]
    rw [hs]
    unfold acquire_lock
    rw [lookupLock_writeLock_self]

/-- Witness for the amended C2 at a concrete store. -/
theorem acquire_sequential_at_most_one_witness :
    (acquire_lock (acquire_lock [] "t1" "a1" 0).2 "t1" "a2" 1).1 = false :=
  acquire_sequential_at_most_one [] "t1" "a1" "a2" 0 1 (by decide)

/-! ### Board store (`src/scripts/board.py`)

A tasks directory is the list of task records in directory-enumeration
(`glob`) order. Python's `list.sort(key=..., reverse=True)` is a stable
descending sort, modelled by `List.mergeSort` (also stable) with the
descending-priority comparison. -/

/-- The JSON body of a `{task_id}.json` task file. `reason` is the key
added by `fail_task` (absent otherwise): `none` models an absent key. -/
structure Task where
  id : String
  description : String
  status : String
  locked_by : Option String
  priority : Int
  created_at : Int
  completed_at : Option Int
  heartbeat : Option Int
  reason : Option String
  deriving Repr, DecidableEq

abbrev TasksDir := List Task

/-- `board.list_tasks`: read all task files in enumeration order,
optionally filtering by status. -/
def list_tasks (dir : TasksDir) (status_filter : Option String) : TasksDir :=
  dir.filter (fun t =>
    match status_filter with
    | none => true
    | some s => t.status = s)

/-- The comparison realizing `sort(key=lambda t: t["priority"], reverse=True)`. -/
def priorityDesc (a b : Task) : Bool := decide (b.priority ≤ a.priority)

/-- Overwriting the task file named `{t.id}.json` with record `t`. -/
def writeTask (dir : TasksDir) (t : Task) : TasksDir :=
  dir.map (fun u => if u.id = t.id then t else u)

/-- `board.claim_task`: restrict to open tasks, stable-sort by priority
descending, take the first, mark it locked by `agent_id` with
`heartbeat = now`, persist it. -/
def claim_task (dir : TasksDir) (agent_id : String) (now : Int) :
    Option Task × TasksDir :=
  match (list_tasks dir (some "open")).mergeSort priorityDesc with
  | [] => (none, dir)
  | chosen :: _ =>
      let chosen' := { chosen with
        status := "locked", locked_by := some agent_id,
        heartbeat := some now }
      (some chosen', writeTask dir chosen')

/-- Reading the task file `{task_id}.json` (raises if absent). -/
def readTask (dir : TasksDir) (task_id : String) : Option Task :=
  dir.find? (fun t => t.id = task_id)

/-- `board._verify_owner`'s test: the task is not locked by the agent. -/
def notOwner (t : Task) (agent_id : String) : Bool :=
  decide (t.status ≠ "locked") || decide (t.locked_by ≠ some agent_id)

/-- `board.complete_task`: `.error` is the raised exception (the directory
is then untouched); on success status=done and `completed_at = now` are
persisted. -/
def complete_task (dir : TasksDir) (task_id agent_id : String) (now : Int) :
    Except String Unit × TasksDir :=
  match readTask dir task_id with
  | none => (.error "not-found", dir)
  | some task =>
      if notOwner task agent_id then (.error "not-owner", dir)
      else (.ok (), writeTask dir
        { task with status := "done", completed_at := some now })

/-- `board.fail_task`: like `complete_task` but status=failed and the
reason recorded. -/
def fail_task (dir : TasksDir) (task_id agent_id : String) (reason : String)
    (now : Int) : Except String Unit × TasksDir :=
  match readTask dir task_id with
  | none => (.error "not-found", dir)
  | some task =>
      if notOwner task agent_id then (.error "not-owner", dir)
      else
        (.ok (), writeTask dir
          { task with
            status := "failed"
            completed_at := some now
            reason := some reason })

theorem priorityDesc_trans (a b c : Task) :
    priorityDesc a b → priorityDesc b c → priorityDesc a c := by
  simp only [priorityDesc, decide_eq_true_eq]
  exact fun h1 h2 => le_trans h2 h1

theorem priorityDesc_total (a b : Task) : priorityDesc a b || priorityDesc b a := by
  simp only [priorityDesc, Bool.or_eq_true, decide_eq_true_eq]
  exact le_total b.priority a.priority

theorem mergeSort_head_max (l : List Task) (c : Task) (rest : List Task)
    (h : l.mergeSort priorityDesc = c :: rest) :
    c ∈ l ∧ ∀ u ∈ l, u.priority ≤ c.priority := by
  have hmem : c ∈ l := by
    have : c ∈ l.mergeSort priorityDesc := by
      rw [h]
      exact List.mem_cons_self c rest
    exact List.mem_mergeSort.mp this
  refine ⟨hmem, fun u hu => ?_⟩
  have hu' : u ∈ c :: rest := by
    rw [← h]
    exact List.mem_mergeSort.mpr hu
  rcases List.mem_cons.mp hu' with rfl | hu''
  · exact le_refl _
  · have hs := List.sorted_mergeSort priorityDesc_trans priorityDesc_total l
    rw [h] at hs
    have := (List.pairwise_cons.mp hs).1 u hu''
    simpa [priorityDesc] using this

theorem mem_open_tasks (dir : TasksDir) (u : Task) :
    u ∈ list_tasks dir (some "open") ↔ u ∈ dir ∧ u.status = "open" := by
  simp [list_tasks]

/-! ### Claim C3 -/

/-- C3: `claim_task` returns `none` iff no task record has status=open
(and then changes nothing); otherwise it returns an open task of maximal
priority among the open tasks, persisted (under its own file name) with
status=locked, `locked_by` the claiming agent and `heartbeat = now`, its
id, description, priority, created_at and completed_at unchanged. -/
theorem claim_task_spec (dir : TasksDir) (agent_id : String) (now : Int) :
    ((claim_task dir agent_id now).1 = none ↔
      list_tasks dir (some "open") = [])
    ∧ ((claim_task dir agent_id now).1 = none →
        (claim_task dir agent_id now).2 = dir)
    ∧ (∀ t', (claim_task dir agent_id now).1 = some t' →
        ∃ t, t ∈ dir ∧ t.status = "open"
          ∧ (∀ u ∈ dir, u.status = "open" → u.priority ≤ t.priority)
          ∧ t' = { t with
                   status := "locked"
                   locked_by := some agent_id
                   heartbeat := some now }
          ∧ (claim_task dir agent_id now).2 = writeTask dir t'
          ∧ t'.id = t.id ∧ t'.description = t.description
          ∧ t'.priority = t.priority ∧ t'.created_at = t.created_at
          ∧ t'.completed_at = t.completed_at
          ∧ t'.status = "locked" ∧ t'.locked_by = some agent_id
          ∧ t'.heartbeat = some now) := by
  cases hms : (list_tasks dir (some "open")).mergeSort priorityDesc with
  | nil =>
    have hopen : list_tasks dir (some "open") = [] := by
      have := @List.length_mergeSort Task priorityDesc
        (list_tasks dir (some "open"))
      rw [hms] at this
      exact List.eq_nil_of_length_eq_zero this.symm
    have hclaim : claim_task dir agent_id now = (none, dir) := by
      unfold claim_task
      rw [hms]
    refine ⟨?_, ?_, ?_⟩
    · rw [hclaim]
      simp [hopen]
    · intro _
      rw [hclaim]
    · intro t' ht'
      rw [hclaim] at ht'
      cases ht'
  | cons c rest =>
    have hclaim : claim_task dir agent_id now
        = (some { c with
                  status := "locked"
                  locked_by := some agent_id
                  heartbeat := some now },
           writeTask dir { c with
                  status := "locked"
                  locked_by := some agent_id
                  heartbeat := some now }) := by
      unfold claim_task
      rw [hms]
    rcases mergeSort_head_max _ c rest hms with ⟨hcmem, hcmax⟩
    rcases (mem_open_tasks dir c).mp hcmem with ⟨hcdir, hcopen⟩
    refine ⟨?_, ?_, ?_⟩
    · rw [hclaim]
      constructor
      · intro hc
        cases hc
      · intro hopen
        rw [hopen] at hms
        simp at hms
    · intro hc
      rw [hclaim] at hc
      cases hc
    · intro t' ht'
      rw [hclaim] at ht'
      have ht'eq : t' = { c with
          status := "locked"
          locked_by := some agent_id
          heartbeat := some now } := by
        cases ht'
        rfl
      subst ht'eq
      refine ⟨c, hcdir, hcopen, ?_, rfl, ?_, rfl, rfl, rfl, rfl, rfl, rfl,
        rfl, rfl⟩
      · intro u hu huopen
        exact hcmax u ((mem_open_tasks dir u).mpr ⟨hu, huopen⟩)
      · rw [hclaim]

/-- Witness for C3 on a two-task board: the priority-5 task is claimed. -/
theorem claim_task_spec_witness :
    ∃ t, t ∈ ([⟨"t1", "low", "open", none, 1, 0, none, none, none⟩,
               ⟨"t2", "high", "open", none, 5, 0, none, none, none⟩] : TasksDir)
      ∧ t.status = "open"
      ∧ (∀ u ∈ ([⟨"t1", "low", "open", none, 1, 0, none, none, none⟩,
                 ⟨"t2", "high", "open", none, 5, 0, none, none, none⟩] :
            TasksDir), u.status = "open" → u.priority ≤ t.priority)
      ∧ (⟨"t2", "high", "locked", some "ag", 5, 0, none, some 9, none⟩ : Task)
          = { t with
              status := "locked"
              locked_by := some "ag"
              heartbeat := some 9 }
      ∧ (claim_task [⟨"t1", "low", "open", none, 1, 0, none, none, none⟩,
            ⟨"t2", "high", "open", none, 5, 0, none, none, none⟩] "ag" 9).2
          = writeTask [⟨"t1", "low", "open", none, 1, 0, none, none, none⟩,
              ⟨"t2", "high", "open", none, 5, 0, none, none, none⟩]
              ⟨"t2", "high", "locked", some "ag", 5, 0, none, some 9, none⟩
      ∧ (⟨"t2", "high", "locked", some "ag", 5, 0, none, some 9, none⟩ :
            Task).id = t.id
      ∧ (⟨"t2", "high", "locked", some "ag", 5, 0, none, some 9, none⟩ :
            Task).description = t.description
      ∧ (⟨"t2", "high", "locked", some "ag", 5, 0, none, some 9, none⟩ :
            Task).priority = t.priority
      ∧ (⟨"t2", "high", "locked", some "ag", 5, 0, none, some 9, none⟩ :
            Task).created_at = t.created_at
      ∧ (⟨"t2", "high", "locked", some "ag", 5, 0, none, some 9, none⟩ :
            Task).completed_at = t.completed_at
      ∧ (⟨"t2", "high", "locked", some "ag", 5, 0, none, some 9, none⟩ :
            Task).status = "locked"
      ∧ (⟨"t2", "high", "locked", some "ag", 5, 0, none, some 9, none⟩ :
            Task).locked_by = some "ag"
      ∧ (⟨"t2", "high", "locked", some "ag", 5, 0, none, some 9, none⟩ :
            Task).heartbeat = some 9 :=
  (claim_task_spec [⟨"t1", "low", "open", none, 1, 0, none, none, none⟩,
      ⟨"t2", "high", "open", none, 5, 0, none, none, none⟩] "ag" 9).2.2
    ⟨"t2", "high", "locked", some "ag", 5, 0, none, some 9, none⟩
    (by simp [claim_task, list_tasks, List.mergeSort, List.splitInTwo,
      List.merge, priorityDesc])

/-! ### Claim C4 -/

/-- C4 counterexample: two open priority-5 tasks with ids "a1" < "b1".
When the directory enumeration yields the "b1" task first, `claim_task`
returns the task with the LARGER id "b1"; the same set enumerated the
other way yields "a1". The choice therefore depends on the enumeration
order and is not an ascending-id tie-break. -/
theorem claim_tie_break_counterexample :
    ((claim_task [⟨"b1", "B", "open", none, 5, 0, none, none, none⟩,
        ⟨"a1", "A", "open", none, 5, 0, none, none, none⟩] "ag" 0).1.map
          Task.id = some "b1")
    ∧ ((claim_task [⟨"a1", "A", "open", none, 5, 0, none, none, none⟩,
        ⟨"b1", "B", "open", none, 5, 0, none, none, none⟩] "ag" 0).1.map
          Task.id = some "a1")
    ∧ ("a1" : String) < "b1" := by
  refine ⟨?_, ?_, by rw [String.lt_iff_toList_lt]; decide⟩ <;>
    simp [claim_task, list_tasks, List.mergeSort, List.splitInTwo,
      List.merge, priorityDesc]

/-- C4 amended: among the open tasks, `claim_task` returns the FIRST task
of maximal priority in directory-enumeration order (the stable sort keeps
ties in enumeration order): every open task enumerated strictly before the
chosen one has strictly smaller priority. There is no tie-break by id, so
which of several equal-priority tasks wins depends on the enumeration
order. -/
theorem claim_task_first_in_enumeration (dir : TasksDir) (agent_id : String)
    (now : Int) (hnd : (dir.map Task.id).Nodup) :
    ∀ t', (claim_task dir agent_id now).1 = some t' →
      ∃ l₁ t l₂, list_tasks dir (some "open") = l₁ ++ t :: l₂
        ∧ t' = { t with
                 status := "locked"
                 locked_by := some agent_id
                 heartbeat := some now }
        ∧ ∀ u ∈ l₁, u.priority < t.priority := by
  intro t' ht'
  cases hms : (list_tasks dir (some "open")).mergeSort priorityDesc with
  | nil =>
    exfalso
    unfold claim_task at ht'
    rw [hms] at ht'
    cases ht'
  | cons c rest =>
    have hclaim : (claim_task dir agent_id now).1
        = some { c with
                 status := "locked"
                 locked_by := some agent_id
                 heartbeat := some now } := by
      unfold claim_task
      rw [hms]
    have ht'c : t' = { c with
        status := "locked"
        locked_by := some agent_id
        heartbeat := some now } := by
      rw [hclaim] at ht'
      cases ht'
      rfl
    rcases mergeSort_head_max _ c rest hms with ⟨hcmem, hcmax⟩
    have hdirnd : dir.Nodup := List.Nodup.of_map Task.id hnd
    have hopensnd : (list_tasks dir (some "open")).Nodup :=
      List.Nodup.filter _ hdirnd
    rcases List.append_of_mem hcmem with ⟨l₁, l₂, hsplit⟩
    have hcnotl₁ : c ∉ l₁ := by
      rw [hsplit] at hopensnd
      have hd := List.disjoint_of_nodup_append hopensnd
      intro hmem
      exact hd hmem (List.mem_cons_self c l₂)
    refine ⟨l₁, c, l₂, hsplit, ht'c, ?_⟩
    intro u hu
    have humem : u ∈ list_tasks dir (some "open") := by
      rw [hsplit]
      exact List.mem_append_left _ hu
    have hle : u.priority ≤ c.priority := hcmax u humem
    rcases lt_or_eq_of_le hle with hlt | heq
    · exact hlt
    · exfalso
      have huc : u ≠ c := fun h => hcnotl₁ (h ▸ hu)
      have hpair : ([u, c] : List Task).Pairwise (fun a b => priorityDesc a b) := by
        simp [priorityDesc, heq]
      have hsubopens : List.Sublist [u, c] (list_tasks dir (some "open")) := by
        rw [hsplit]
        have h1 : List.Sublist [u] l₁ := List.singleton_sublist.mpr hu
        have h2 : List.Sublist [c] (c :: l₂) := (List.nil_sublist l₂).cons₂ c
        exact h1.append h2
      have hsubsort : List.Sublist [u, c]
          ((list_tasks dir (some "open")).mergeSort priorityDesc) :=
        List.sublist_mergeSort priorityDesc_trans priorityDesc_total
          hpair hsubopens
      rw [hms] at hsubsort
      have hsortnd : (c :: rest).Nodup := by
        rw [← hms]
        exact (List.mergeSort_perm _ priorityDesc).nodup_iff.mpr hopensnd
      have hcnotrest : c ∉ rest := (List.nodup_cons.mp hsortnd).1
      cases hsubsort with
      | cons _ htail =>
        exact hcnotrest (htail.subset (by simp))
      | cons₂ _ _ => exact huc rfl

/-- Witness for the amended C4: with tasks of priorities 3 then 5, the
priority-5 task is chosen and the tasks before it have smaller priority. -/
theorem claim_task_first_in_enumeration_witness :
    ∃ l₁ t l₂,
      list_tasks [⟨"a1", "A", "open", none, 3, 0, none, none, none⟩,
        ⟨"b1", "B", "open", none, 5, 0, none, none, none⟩] (some "open")
        = l₁ ++ t :: l₂
      ∧ (⟨"b1", "B", "locked", some "ag", 5, 0, none, some 4, none⟩ : Task)
          = { t with
              status := "locked"
              locked_by := some "ag"
              heartbeat := some 4 }
      ∧ ∀ u ∈ l₁, u.priority < t.priority :=
  claim_task_first_in_enumeration
    [⟨"a1", "A", "open", none, 3, 0, none, none, none⟩,
     ⟨"b1", "B", "open", none, 5, 0, none, none, none⟩] "ag" 4
    (by decide)
    ⟨"b1", "B", "locked", some "ag", 5, 0, none, some 4, none⟩
    (by simp [claim_task, list_tasks, List.mergeSort, List.splitInTwo,
      List.merge, priorityDesc])

/-! ### Claim C6 -/

theorem notOwner_iff (t : Task) (agent_id : String) :
    notOwner t agent_id = true ↔
      (t.status ≠ "locked" ∨ t.locked_by ≠ some agent_id) := by
  simp [notOwner]

/-- C6: `complete_task` and `fail_task` raise the not-owner error exactly
when the record's status is not "locked" or `locked_by` is not the given
agent, and then leave the directory unchanged; otherwise `complete_task`
persists status=done with `completed_at = now`, and `fail_task` persists
status=failed with `completed_at = now` and the reason recorded, all
other fields unchanged. -/
theorem complete_fail_owner_spec (dir : TasksDir)
    (task_id agent_id reason : String) (now : Int) (t : Task)
    (h : readTask dir task_id = some t) :
    ((complete_task dir task_id agent_id now).1 = .error "not-owner"
      ↔ (t.status ≠ "locked" ∨ t.locked_by ≠ some agent_id))
    ∧ ((fail_task dir task_id agent_id reason now).1 = .error "not-owner"
      ↔ (t.status ≠ "locked" ∨ t.locked_by ≠ some agent_id))
    ∧ ((t.status ≠ "locked" ∨ t.locked_by ≠ some agent_id) →
        (complete_task dir task_id agent_id now).2 = dir
        ∧ (fail_task dir task_id agent_id reason now).2 = dir)
    ∧ (t.status = "locked" → t.locked_by = some agent_id →
        (complete_task dir task_id agent_id now).1 = .ok ()
        ∧ (complete_task dir task_id agent_id now).2
            = writeTask dir { t with
                status := "done"
                completed_at := some now }
        ∧ (fail_task dir task_id agent_id reason now).1 = .ok ()
        ∧ (fail_task dir task_id agent_id reason now).2
            = writeTask dir { t with
                status := "failed"
                completed_at := some now
                reason := some reason }) := by
  by_cases hno : notOwner t agent_id
  · have hprop := (notOwner_iff t agent_id).mp hno
    refine ⟨?_, ?_, ?_, ?_⟩
    · constructor
      · intro _
        exact hprop
      · intro _
        simp [complete_task, h, hno]
    · constructor
      · intro _
        exact hprop
      · intro _
        simp [fail_task, h, hno]
    · intro _
      constructor
      · simp [complete_task, h, hno]
      · simp [fail_task, h, hno]
    · intro hst hlb
      exfalso
      rcases hprop with hc | hc
      · exact hc hst
      · exact hc hlb
  · have hprop : ¬(t.status ≠ "locked" ∨ t.locked_by ≠ some agent_id) :=
      fun hc => hno ((notOwner_iff t agent_id).mpr hc)
    refine ⟨?_, ?_, ?_, ?_⟩
    · simp only [complete_task, h, hno, if_false]
      constructor
      · intro hc
        cases hc
      · intro hc
        exact absurd hc hprop
    · simp only [fail_task, h, hno, if_false]
      constructor
      · intro hc
        cases hc
      · intro hc
        exact absurd hc hprop
    · intro hc
      exact absurd hc hprop
    · intro _ _
      refine ⟨?_, ?_, ?_, ?_⟩ <;> simp [complete_task, fail_task, h, hno]

/-- Witness for C6: a task locked by "a1"; "a2" is rejected with the
directory untouched, "a1" completes it. -/
theorem complete_fail_owner_spec_witness :
    ((complete_task
        [⟨"t1", "d", "locked", some "a1", 1, 0, none, some 0, none⟩]
        "t1" "a2" 9).1 = .error "not-owner"
      ↔ ((⟨"t1", "d", "locked", some "a1", 1, 0, none, some 0, none⟩ :
          Task).status ≠ "locked"
        ∨ (⟨"t1", "d", "locked", some "a1", 1, 0, none, some 0, none⟩ :
          Task).locked_by ≠ some "a2")) :=
  (complete_fail_owner_spec
    [⟨"t1", "d", "locked", some "a1", 1, 0, none, some 0, none⟩]
    "t1" "a2" "r" 9 ⟨"t1", "d", "locked", some "a1", 1, 0, none, some 0, none⟩
    (by decide)).1

/-! ### Claim C9: reopen -/

/-- Lemma: reading a task found under its file name yields its own id. -/
theorem readTask_id (dir : TasksDir) (k : String) (t : Task)
    (h : readTask dir k = some t) : t.id = k := by
  have := List.find?_some h
  simpa using this

theorem readTask_writeTask_self (dir : TasksDir) (t : Task) :
    readTask (writeTask dir t) t.id = (readTask dir t.id).map (fun _ => t) := by
  induction dir with
  | nil => simp [readTask, writeTask]
  | cons u rest ih =>
    by_cases hu : u.id = t.id
    · simp [readTask, writeTask, List.find?, hu]
    · simpa [readTask, writeTask, List.find?, hu] using ih

theorem writeTask_writeTask (dir : TasksDir) (t : Task) :
    writeTask (writeTask dir t) t = writeTask dir t := by
  induction dir with
  | nil => simp [writeTask]
  | cons u rest ih =>
    by_cases hu : u.id = t.id
    · simpa [writeTask, hu] using ih
    · simpa [writeTask, hu] using ih

theorem eraseLock_eraseLock (locks : LockStore) (k : String) :
    eraseLock (eraseLock locks k) k = eraseLock locks k := by
  induction locks with
  | nil => simp [eraseLock]
  | cons p rest ih =>
    by_cases hp : p.1 = k
    · simp only [eraseLock, ne_eq, decide_not] at ih
      simp [eraseLock, hp, ih]
    · simp only [eraseLock, ne_eq, decide_not] at ih
      simp [eraseLock, hp, ih]

/-- `dashboard.reopen_task` (the `POST /tasks/{id}/reopen` action): if the
task file exists, set status=open, clear `locked_by`, `heartbeat` and
`completed_at`, persist, and delete the task's lock file if present;
otherwise do nothing. -/
def reopen_task (dir : TasksDir) (locks : LockStore) (task_id : String) :
    TasksDir × LockStore :=
  match readTask dir task_id with
  | none => (dir, locks)
  | some task =>
      (writeTask dir { task with
          status := "open"
          locked_by := none
          heartbeat := none
          completed_at := none },
       eraseLock locks task_id)

/-- C9: reopen is idempotent — for an existing task, reopening twice
yields exactly the task-directory and lock-store state of reopening once;
the reopened record has status=open with lock ownership, heartbeat and
completion time cleared, and the task's lock file is gone. -/
theorem reopen_task_idempotent (dir : TasksDir) (locks : LockStore)
    (x : String) (h : (readTask dir x).isSome) :
    reopen_task (reopen_task dir locks x).1 (reopen_task dir locks x).2 x
      = reopen_task dir locks x
    ∧ (∀ t, readTask (reopen_task dir locks x).1 x = some t →
        t.status = "open" ∧ t.locked_by = none ∧ t.heartbeat = none
        ∧ t.completed_at = none)
    ∧ lookupLock (reopen_task dir locks x).2 x = none := by
  rcases Option.isSome_iff_exists.mp h with ⟨task, htask⟩
  have hid : task.id = x := readTask_id dir x task htask
  set task' : Task := { task with
    status := "open"
    locked_by := none
    heartbeat := none
    completed_at := none } with htask'
  have hre : reopen_task dir locks x = (writeTask dir task', eraseLock locks x) := by
    unfold reopen_task
    rw [htask]
  have hid' : task'.id = x := hid
  have hread : readTask (writeTask dir task') x = some task' := by
    rw [← hid', readTask_writeTask_self, hid', htask]
    rfl
  refine ⟨?_, ?_, ?_⟩
  · rw [hre]
    have h2 : reopen_task (writeTask dir task') (eraseLock locks x) x
        = (writeTask (writeTask dir task') task',
           eraseLock (eraseLock locks x) x) := by
      unfold reopen_task
      rw [hread]
    rw [h2, writeTask_writeTask, eraseLock_eraseLock]
  · intro t ht
    rw [hre] at ht
    have : t = task' := by
      rw [hread] at ht
      cases ht
      rfl
    rw [this]
    exact ⟨rfl, rfl, rfl, rfl⟩
  · rw [hre]
    exact lookupLock_eraseLock_self locks x

/-- Witness for C9 on a concrete done task with a leftover lock. -/
theorem reopen_task_idempotent_witness :
    reopen_task
        (reopen_task [⟨"t1", "d", "done", some "a1", 1, 0, some 5, some 2, none⟩]
          [("t1", ⟨"a1", "t1", 0, 2⟩)] "t1").1
        (reopen_task [⟨"t1", "d", "done", some "a1", 1, 0, some 5, some 2, none⟩]
          [("t1", ⟨"a1", "t1", 0, 2⟩)] "t1").2 "t1"
      = reopen_task [⟨"t1", "d", "done", some "a1", 1, 0, some 5, some 2, none⟩]
          [("t1", ⟨"a1", "t1", 0, 2⟩)] "t1"
    ∧ lookupLock
        (reopen_task [⟨"t1", "d", "done", some "a1", 1, 0, some 5, some 2, none⟩]
          [("t1", ⟨"a1", "t1", 0, 2⟩)] "t1").2 "t1" = none := by
  have hfull := reopen_task_idempotent
    [⟨"t1", "d", "done", some "a1", 1, 0, some 5, some 2, none⟩]
    [("t1", ⟨"a1", "t1", 0, 2⟩)] "t1" (by decide)
  exact ⟨hfull.1, hfull.2.2⟩

/-! ### Fleet supervisor health check (`dashboard._health_check`) -/

/-- One fleet-table entry (the fields the health check reads and writes). -/
structure AgentState where
  status : String
  container_id : String
  restart_count : Nat
  deriving Repr, DecidableEq

/-- The in-memory fleet table `_fleet_state`, in iteration order. -/
abbrev FleetState := List (String × AgentState)

/-- `dashboard.MAX_RESTARTS`. -/
def MAX_RESTARTS : Nat := 3

/-- The update one health-check tick applies to a single fleet entry,
paired with the container ids it passes to `orchestrator.restart_agent`.
`restartOk c` tells whether the runtime reported status "running" for the
restart of container `c`. Entries with an empty container id are skipped
(`if not container_id: continue`). -/
def healthStep (running : List String) (restartOk : String → Bool)
    (st : AgentState) : AgentState × List String :=
  if st.container_id = "" then (st, [])
  else if st.container_id ∈ running then
    ({ st with status := "healthy" }, [])
  else if st.restart_count < MAX_RESTARTS then
    ({ st with
        status := if restartOk st.container_id then "restarting" else "crashed"
        restart_count := st.restart_count + 1 },
     [st.container_id])
  else ({ st with status := "crashed" }, [])

/-- `dashboard._health_check`: one tick over the whole fleet table,
returning the updated table and the concatenated restart calls. -/
def health_check (fleet : FleetState) (running : List String)
    (restartOk : String → Bool) : FleetState × List String :=
  match fleet with
  | [] => ([], [])
  | _ =>
      (fleet.map (fun p => (p.1, (healthStep running restartOk p.2).1)),
       (fleet.map (fun p => (healthStep running restartOk p.2).2)).flatten)

theorem health_check_eq_map (fleet : FleetState) (running : List String)
    (restartOk : String → Bool) :
    health_check fleet running restartOk
      = (fleet.map (fun p => (p.1, (healthStep running restartOk p.2).1)),
         (fleet.map (fun p => (healthStep running restartOk p.2).2)).flatten) := by
  cases fleet <;> rfl

/-- The nonempty container ids of a fleet table — one per entry that
actually records a container. Entries recording a failed start all carry
the empty id (`start_agent` returns `container_id = ""` on failure) and
are exempt: only real container ids are pairwise distinct in a reachable
fleet. -/
def nonemptyIds (fleet : FleetState) : List String :=
  (fleet.map (fun p => p.2.container_id)).filter (fun c => !decide (c = ""))

theorem nonemptyIds_cons (p : String × AgentState) (rest : FleetState) :
    nonemptyIds (p :: rest)
      = if p.2.container_id = "" then nonemptyIds rest
        else p.2.container_id :: nonemptyIds rest := by
  by_cases h : p.2.container_id = "" <;> simp [nonemptyIds, List.filter, h]

theorem mem_nonemptyIds (fleet : FleetState) (a : String) (st : AgentState)
    (hmem : (a, st) ∈ fleet) (hne : st.container_id ≠ "") :
    st.container_id ∈ nonemptyIds fleet :=
  List.mem_filter.mpr
    ⟨List.mem_map_of_mem (fun q => q.2.container_id) hmem, by simpa using hne⟩

theorem healthStep_count_zero (running : List String)
    (restartOk : String → Bool) (q : AgentState) (c : String)
    (h : q.container_id = "" ∨ q.container_id ≠ c) :
    ((healthStep running restartOk q).2).count c = 0 := by
  unfold healthStep
  rcases h with h | h
  · simp [h]
  · split
    · simp
    · split
      · simp
      · split
        · simp [List.count_singleton]
          intro hc
          exact absurd hc h
        · simp

theorem health_calls_count_zero (fleet : FleetState) (running : List String)
    (restartOk : String → Bool) (c : String)
    (h : c ∉ nonemptyIds fleet) :
    ((fleet.map (fun p => (healthStep running restartOk p.2).2)).flatten).count c
      = 0 := by
  induction fleet with
  | nil => simp
  | cons p rest ih =>
    rw [nonemptyIds_cons] at h
    have hrest : c ∉ nonemptyIds rest := by
      intro hc
      apply h
      by_cases hp : p.2.container_id = ""
      · rwa [if_pos hp]
      · rw [if_neg hp]
        exact List.mem_cons_of_mem _ hc
    have hhead : ((healthStep running restartOk p.2).2).count c = 0 := by
      apply healthStep_count_zero
      by_cases hp : p.2.container_id = ""
      · exact Or.inl hp
      · right
        intro hc
        rw [if_neg hp] at h
        apply h
        rw [← hc]
        exact List.mem_cons_self _ _
    simp [List.count_append, hhead, ih hrest]

theorem health_calls_count (fleet : FleetState) (running : List String)
    (restartOk : String → Bool) (a : String) (st : AgentState)
    (hmem : (a, st) ∈ fleet) (hnd : (nonemptyIds fleet).Nodup) :
    ((fleet.map (fun p => (healthStep running restartOk p.2).2)).flatten).count
        st.container_id
      = ((healthStep running restartOk st).2).count st.container_id := by
  by_cases hempty : st.container_id = ""
  · have hnotin : st.container_id ∉ nonemptyIds fleet := by
      intro hc
      have := (List.mem_filter.mp hc).2
      simp [hempty] at this
    rw [health_calls_count_zero fleet running restartOk st.container_id hnotin]
    unfold healthStep
    simp [hempty]
  · induction fleet with
    | nil => cases hmem
    | cons p rest ih =>
      rw [nonemptyIds_cons] at hnd
      rcases List.mem_cons.mp hmem with heq | hmem'
      · have hp : p = (a, st) := heq.symm
        subst hp
        rw [if_neg hempty] at hnd
        have hnd' := List.nodup_cons.mp hnd
        have hzero : ((rest.map
            (fun p => (healthStep running restartOk p.2).2)).flatten).count
              st.container_id = 0 :=
          health_calls_count_zero rest running restartOk st.container_id hnd'.1
        simp [List.count_append, hzero]
      · have hstmem : st.container_id ∈ nonemptyIds rest :=
          mem_nonemptyIds rest a st hmem' hempty
        by_cases hp : p.2.container_id = ""
        · rw [if_pos hp] at hnd
          have hhead := healthStep_count_zero running restartOk p.2
            st.container_id (Or.inl hp)
          simp [List.count_append, hhead, ih hmem' hnd]
        · rw [if_neg hp] at hnd
          have hnd' := List.nodup_cons.mp hnd
          have hpne : p.2.container_id ≠ st.container_id := by
            intro hc
            apply hnd'.1
            rw [hc]
            exact hstmem
          have hhead := healthStep_count_zero running restartOk p.2
            st.container_id (Or.inr hpne)
          simp [List.count_append, hhead, ih hmem' hnd'.2]

/-! ### Claim C7 -/

/-- C7 counterexample: a fleet entry whose recorded container id is the
empty string (exactly what `fleet_start` records when `start_agent`
fails). Its container id is absent from the running set and
`restart_count = 0 < MAX_RESTARTS`, so the claim demands one
`restart_agent` call and `restart_count = 1`; but the tick skips the
entry entirely: no restart call is made and the entry is unchanged. -/
theorem health_check_skip_counterexample :
    health_check [("impl-0", ⟨"running", "", 0⟩)] [] (fun _ => true)
      = ([("impl-0", ⟨"running", "", 0⟩)], [])
    ∧ ("" : String) ∉ ([] : List String)
    ∧ (0 : Nat) < MAX_RESTARTS := by
  refine ⟨rfl, by simp, by decide⟩

/-- C7 amended: one health-check tick updates every fleet entry
independently. Entries with an empty container id are skipped unchanged
with no restart call. For an entry with a nonempty container id: if the
id is in the running set, status becomes healthy and no restart call is
made for it; if absent with `restart_count < 3`, `restart_agent` is
called exactly once for it, `restart_count` is incremented, and status
becomes restarting if the restart reported running and crashed otherwise;
if absent with `restart_count ≥ 3`, status becomes crashed and no restart
call is made. -/
theorem health_check_tick_spec (fleet : FleetState) (running : List String)
    (restartOk : String → Bool)
    (hnd : (nonemptyIds fleet).Nodup) :
    (health_check fleet running restartOk).1
      = fleet.map (fun p => (p.1, (healthStep running restartOk p.2).1))
    ∧ (∀ a st, (a, st) ∈ fleet →
        (st.container_id = "" →
          (healthStep running restartOk st).1 = st
          ∧ (health_check fleet running restartOk).2.count st.container_id = 0)
        ∧ (st.container_id ≠ "" → st.container_id ∈ running →
          (healthStep running restartOk st).1 = { st with status := "healthy" }
          ∧ (health_check fleet running restartOk).2.count st.container_id = 0)
        ∧ (st.container_id ≠ "" → st.container_id ∉ running →
            st.restart_count < MAX_RESTARTS →
          (healthStep running restartOk st).1
            = { st with
                status := if restartOk st.container_id then "restarting"
                  else "crashed"
                restart_count := st.restart_count + 1 }
          ∧ (health_check fleet running restartOk).2.count st.container_id = 1)
        ∧ (st.container_id ≠ "" → st.container_id ∉ running →
            ¬ st.restart_count < MAX_RESTARTS →
          (healthStep running restartOk st).1 = { st with status := "crashed" }
          ∧ (health_check fleet running restartOk).2.count st.container_id
              = 0)) := by
  have hsnd : (health_check fleet running restartOk).2
      = (fleet.map (fun p => (healthStep running restartOk p.2).2)).flatten := by
    rw [health_check_eq_map]
  refine ⟨by rw [health_check_eq_map], ?_⟩
  intro a st hmem
  have hcalls := health_calls_count fleet running restartOk a st hmem hnd
  refine ⟨?_, ?_, ?_, ?_⟩
  · intro hempty
    constructor
    · simp [healthStep, hempty]
    · rw [hsnd, hcalls]
      simp [healthStep, hempty]
  · intro hne hrun
    constructor
    · simp [healthStep, hne, hrun]
    · rw [hsnd, hcalls]
      simp [healthStep, hne, hrun]
  · intro hne hnotrun hlt
    constructor
    · simp [healthStep, hne, hnotrun, hlt]
    · rw [hsnd, hcalls]
      simp [healthStep, hne, hnotrun, hlt]
  · intro hne hnotrun hge
    constructor
    · simp [healthStep, hne, hnotrun, hge]
    · rw [hsnd, hcalls]
      simp [healthStep, hne, hnotrun, hge]

/-- Witness for the amended C7: a fleet holding TWO failed-start entries
(both with container id "") next to a crashed agent with a real
container id — the hypothesis (distinctness of the nonempty ids only)
holds, and on one tick the crashed agent is restarted exactly once. -/
theorem health_check_tick_spec_witness :
    ((healthStep [] (fun _ => true)
        (⟨"running", "c2", 1⟩ : AgentState)).1
      = (⟨"restarting", "c2", 2⟩ : AgentState))
    ∧ (health_check
        [("a0", ⟨"failed", "", 0⟩), ("b0", ⟨"failed", "", 0⟩),
         ("c0", ⟨"running", "c2", 1⟩)]
        [] (fun _ => true)).2.count "c2" = 1 :=
  (health_check_tick_spec
    [("a0", ⟨"failed", "", 0⟩), ("b0", ⟨"failed", "", 0⟩),
     ("c0", ⟨"running", "c2", 1⟩)]
    [] (fun _ => true) (by decide)).2 "c0" ⟨"running", "c2", 1⟩
    (by decide) |>.2.2.1 (by decide) (by simp) (by decide)

/-! ### Message store (`board.post_message` / `get_messages` / `mark_read`) -/

/-- The JSON body of a `{msg_id}.json` message file. -/
structure Message where
  id : String
  from_role : String
  to_role : String
  timestamp : Int
  text : String
  read : Bool
  deriving Repr, DecidableEq

abbrev MessagesDir := List Message

/-- `board.post_message`, the fresh `uuid4().hex[:8]` id passed
explicitly; the new file joins the directory enumeration. -/
def post_message (dir : MessagesDir) (from_role to_role text msg_id : String)
    (now : Int) : String × MessagesDir :=
  (msg_id, dir ++ [⟨msg_id, from_role, to_role, now, text, false⟩])

/-- `board.get_messages`: messages addressed to the role, skipping read
ones when `unread_only`. -/
def get_messages (dir : MessagesDir) (for_role : String)
    (unread_only : Bool) : MessagesDir :=
  dir.filter (fun m => decide (m.to_role = for_role) && !(unread_only && m.read))

/-- `board.mark_read`: read `{msg_id}.json` (raising if absent), set
`read = True`, write it back. -/
def mark_read (dir : MessagesDir) (msg_id : String) :
    Except String Unit × MessagesDir :=
  match dir.find? (fun m => m.id = msg_id) with
  | none => (.error "not-found", dir)
  | some _ =>
      (.ok (), dir.map (fun u =>
        if u.id = msg_id then { u with read := true } else u))

/-- A run of message-store mutations. -/
inductive MsgOp where
  | post (from_role to_role text msg_id : String) (now : Int)
  | markRead (msg_id : String)
  deriving Repr, DecidableEq

def msgStep (dir : MessagesDir) : MsgOp → MessagesDir
  | .post f tr x i n => (post_message dir f tr x i n).2
  | .markRead i => (mark_read dir i).2

def runMsgOps (dir : MessagesDir) : List MsgOp → MessagesDir
  | [] => dir
  | op :: ops => runMsgOps (msgStep dir op) ops

theorem find?_eq_filter_head {α : Type} (p : α → Bool) (l : List α) :
    l.find? p = (l.filter p).head? := by
  induction l with
  | nil => simp
  | cons x rest ih =>
    by_cases hx : p x
    · simp [List.find?, List.filter, hx]
    · rw [List.find?_cons_of_neg _ (by simpa using hx), List.filter_cons_of_neg (by simpa using hx)]
      exact ih

theorem getMessages_filter_id (dir : MessagesDir) (R i : String) (b : Bool) :
    (get_messages dir R b).filter (fun m => m.id = i)
      = (dir.filter (fun m => m.id = i)).filter
          (fun m => decide (m.to_role = R) && !(b && m.read)) := by
  unfold get_messages
  rw [List.filter_filter, List.filter_filter]
  apply List.filter_congr
  intro m _
  rw [Bool.and_comm]

theorem filter_id_map_setRead (dir : MessagesDir) (i j : String) (h : j ≠ i) :
    (dir.map (fun u => if u.id = j then { u with read := true } else u)).filter
        (fun m => m.id = i)
      = dir.filter (fun m => m.id = i) := by
  induction dir with
  | nil => simp
  | cons u rest ih =>
    by_cases hu : u.id = j
    · have hui : ¬u.id = i := fun hc => h (by rw [← hu, hc])
      simp only [List.map_cons, if_pos hu]
      simp [List.filter, hui, ih]
    · simp only [List.map_cons, if_neg hu]
      by_cases hui : u.id = i <;> simp [List.filter, hui, ih]

theorem filter_id_map_setRead_self (d : MessagesDir) (i : String)
    (msg : Message) (hI : d.filter (fun m => m.id = i) = [msg]) :
    (d.map (fun u => if u.id = i then { u with read := true } else u)).filter
        (fun m => m.id = i) = [{ msg with read := true }] := by
  induction d with
  | nil => simp at hI
  | cons u rest ih =>
    by_cases hu : u.id = i
    · have hcons : u :: rest.filter (fun m => m.id = i) = [msg] := by
        simpa [List.filter, hu] using hI
      rcases List.cons_eq_cons.mp hcons with ⟨hum, hrest⟩
      have hrest2 : (rest.map (fun v =>
          if v.id = i then { v with read := true } else v)).filter
            (fun m => m.id = i) = [] := by
        rw [List.filter_eq_nil_iff] at hrest ⊢
        intro a ha
        rcases List.mem_map.mp ha with ⟨v, hv, hva⟩
        have hvi : ¬v.id = i := by simpa using hrest v hv
        rw [← hva]
        simp [hvi]
      simp only [List.map_cons, if_pos hu]
      rw [← hum]
      simp [List.filter, hu, hrest2]
    · have hrest : rest.filter (fun m => m.id = i) = [msg] := by
        simpa [List.filter, hu] using hI
      simp only [List.map_cons, if_neg hu]
      simp [List.filter, hu, ih hrest]

theorem filter_id_mark_read (dir : MessagesDir) (i j : String) (h : j ≠ i) :
    ((mark_read dir j).2).filter (fun m => m.id = i)
      = dir.filter (fun m => m.id = i) := by
  unfold mark_read
  cases hf : dir.find? (fun m => m.id = j) with
  | none => rfl
  | some m => simpa using filter_id_map_setRead dir i j h

theorem filter_id_msgStep (dir : MessagesDir) (i : String) (msg : Message)
    (op : MsgOp) (hI : dir.filter (fun m => m.id = i) = [msg])
    (hop : op ≠ .markRead i ∧ ∀ f tr x n, op ≠ .post f tr x i n) :
    (msgStep dir op).filter (fun m => m.id = i) = [msg] := by
  cases op with
  | post f tr x j n =>
    have hj : ¬(j = i) := by
      intro hc
      exact (hop.2 f tr x n) (by rw [hc])
    simp [msgStep, post_message, List.filter_append, hI, hj]
  | markRead j =>
    have hj : j ≠ i := by
      intro hc
      exact hop.1 (by rw [hc])
    rw [msgStep, filter_id_mark_read dir i j hj, hI]

theorem filter_id_runMsgOps (i : String) (msg : Message) :
    ∀ (ops : List MsgOp) (dir : MessagesDir),
      dir.filter (fun m => m.id = i) = [msg] →
      (∀ op ∈ ops, op ≠ .markRead i ∧ ∀ f tr x n, op ≠ .post f tr x i n) →
      (runMsgOps dir ops).filter (fun m => m.id = i) = [msg] := by
  intro ops
  induction ops with
  | nil => exact fun dir h _ => h
  | cons op ops ih =>
    intro dir h hops
    exact ih (msgStep dir op)
      (filter_id_msgStep dir i msg op h (hops op (List.mem_cons_self op ops)))
      (fun o ho => hops o (List.mem_cons_of_mem op ho))

theorem mark_read_of_filter (d : MessagesDir) (i : String) (msg : Message)
    (hI : d.filter (fun m => m.id = i) = [msg]) :
    (mark_read d i).1 = .ok ()
    ∧ ((mark_read d i).2).filter (fun m => m.id = i)
        = [{ msg with read := true }] := by
  have hfind : d.find? (fun m => m.id = i) = some msg := by
    rw [find?_eq_filter_head, hI]
    rfl
  unfold mark_read
  rw [hfind]
  exact ⟨rfl, filter_id_map_setRead_self d i msg hI⟩

/-! ### Claim C8 -/

/-- C8: a message posted to role R with text T is returned by
`get_messages R` (with and without `unread_only`) exactly once and with
read=false, and stays so across any further posts of fresh ids and
`mark_read` calls on other ids; after `mark_read` of its id it is no
longer returned when `unread_only=true` but is still returned exactly
once, with read=true, when `unread_only=false`. -/
theorem message_round_trip (dir : MessagesDir) (F R T i : String) (now : Int)
    (hfresh : ∀ m ∈ dir, m.id ≠ i) :
    ((get_messages (post_message dir F R T i now).2 R false).filter
        (fun m => m.id = i) = [⟨i, F, R, now, T, false⟩])
    ∧ ((get_messages (post_message dir F R T i now).2 R true).filter
        (fun m => m.id = i) = [⟨i, F, R, now, T, false⟩])
    ∧ (∀ ops,
        (∀ op ∈ ops, op ≠ .markRead i ∧ ∀ f tr x n, op ≠ .post f tr x i n) →
        (get_messages (runMsgOps (post_message dir F R T i now).2 ops)
            R false).filter (fun m => m.id = i)
          = [⟨i, F, R, now, T, false⟩])
    ∧ (∀ d2,
        d2.filter (fun m => m.id = i) = [(⟨i, F, R, now, T, false⟩ : Message)] →
        (mark_read d2 i).1 = .ok ()
        ∧ (get_messages (mark_read d2 i).2 R true).filter
            (fun m => m.id = i) = []
        ∧ (get_messages (mark_read d2 i).2 R false).filter
            (fun m => m.id = i) = [⟨i, F, R, now, T, true⟩]) := by
  have hdirnil : dir.filter (fun m => decide (m.id = i)) = [] := by
    rw [List.filter_eq_nil_iff]
    intro m hm
    simpa using hfresh m hm
  have hI : (post_message dir F R T i now).2.filter (fun m => m.id = i)
      = [⟨i, F, R, now, T, false⟩] := by
    simp [post_message, List.filter_append, hdirnil]
  refine ⟨?_, ?_, ?_, ?_⟩
  · rw [getMessages_filter_id, hI]
    simp
  · rw [getMessages_filter_id, hI]
    simp
  · intro ops hops
    rw [getMessages_filter_id,
      filter_id_runMsgOps i ⟨i, F, R, now, T, false⟩ ops _ hI hops]
    simp
  · intro d2 hd2
    rcases mark_read_of_filter d2 i ⟨i, F, R, now, T, false⟩ hd2 with ⟨hok, hflt⟩
    refine ⟨hok, ?_, ?_⟩
    · rw [getMessages_filter_id, hflt]
      simp
    · rw [getMessages_filter_id, hflt]
      simp

/-- Witness for C8: posting into an empty messages directory. -/
theorem message_round_trip_witness :
    (get_messages (post_message [] "ui" "dev" "hello" "m1" 3).2
        "dev" false).filter (fun m => m.id = "m1")
      = [⟨"m1", "ui", "dev", 3, "hello", false⟩] :=
  (message_round_trip [] "ui" "dev" "hello" "m1" 3 (by simp)).1

/-! ### Claim C10: archive sweep (`board.archive_done`) -/

/-- The guards of the `archive_done` loop body: status must be done or
failed, `completed_at` must be non-null, and the completion time must be
strictly before the cutoff. -/
def shouldArchive (cutoff : Int) (t : Task) : Bool :=
  (decide (t.status = "done") || decide (t.status = "failed"))
  && match t.completed_at with
     | none => false
     | some c => decide (c < cutoff)

/-- The `archive_done` loop over the enumerated task files: matching
files are moved (appended, in enumeration order) to the archive
directory, all others stay. -/
def archiveLoop : TasksDir → TasksDir → Int → TasksDir × TasksDir
  | [], archive, _ => ([], archive)
  | t :: rest, archive, cutoff =>
      if shouldArchive cutoff t then archiveLoop rest (archive ++ [t]) cutoff
      else
        let (dir', archive') := archiveLoop rest archive cutoff
        (t :: dir', archive')

/-- `board.archive_done`: cutoff is `now` minus `older_than_days` days. -/
def archive_done (dir archive : TasksDir) (now older_than_days : Int) :
    TasksDir × TasksDir :=
  archiveLoop dir archive (now - older_than_days * 86400)

theorem archiveLoop_eq (cutoff : Int) :
    ∀ (dir archive : TasksDir),
      archiveLoop dir archive cutoff
        = (dir.filter (fun t => !shouldArchive cutoff t),
           archive ++ dir.filter (shouldArchive cutoff)) := by
  intro dir
  induction dir with
  | nil => simp [archiveLoop]
  | cons t rest ih =>
    intro archive
    by_cases ht : shouldArchive cutoff t
    · simp [archiveLoop, ht, ih (archive ++ [t])]
    · simp [archiveLoop, ht, ih archive]

/-- C10: `archive_done` totally processes every record; a record whose
status is done or failed but whose `completed_at` is null is left in
place and not moved; the records moved to the archive are exactly those
with status done or failed AND a non-null `completed_at` strictly older
than the cutoff (`now` minus `older_than_days` days). -/
theorem archive_done_spec (dir archive : TasksDir) (now days : Int) :
    ((archive_done dir archive now days).1
      = dir.filter (fun t => !shouldArchive (now - days * 86400) t))
    ∧ ((archive_done dir archive now days).2
      = archive ++ dir.filter (shouldArchive (now - days * 86400)))
    ∧ (∀ t ∈ dir, t.completed_at = none →
        t ∈ (archive_done dir archive now days).1
        ∧ t ∉ dir.filter (shouldArchive (now - days * 86400)))
    ∧ (∀ t, shouldArchive (now - days * 86400) t = true ↔
        ((t.status = "done" ∨ t.status = "failed")
          ∧ ∃ c, t.completed_at = some c ∧ c < now - days * 86400)) := by
  have harch := archiveLoop_eq (now - days * 86400) dir archive
  refine ⟨?_, ?_, ?_, ?_⟩
  · rw [archive_done, harch]
  · rw [archive_done, harch]
  · intro t hmem hnone
    have hnot : shouldArchive (now - days * 86400) t = false := by
      simp [shouldArchive, hnone]
    constructor
    · rw [archive_done, harch]
      exact List.mem_filter.mpr ⟨hmem, by simp [hnot]⟩
    · intro hc
      have := (List.mem_filter.mp hc).2
      rw [hnot] at this
      cases this
  · intro t
    constructor
    · intro h
      unfold shouldArchive at h
      rcases Bool.and_eq_true_iff.mp h with ⟨h1, h2⟩
      refine ⟨by simpa using h1, ?_⟩
      cases hc : t.completed_at with
      | none =>
        rw [hc] at h2
        cases h2
      | some c =>
        rw [hc] at h2
        exact ⟨c, rfl, by simpa using h2⟩
    · intro ⟨h1, c, hc, hlt⟩
      unfold shouldArchive
      rw [hc]
      simp [hlt]
      rcases h1 with h | h <;> simp [h]

/-- Witness for C10: a done task with `completed_at = null` survives the
sweep and is not among the moved records, even with a cutoff far in the
future. -/
theorem archive_done_spec_witness :
    (⟨"t1", "d", "done", none, 1, 0, none, none, none⟩ : Task)
      ∈ (archive_done [⟨"t1", "d", "done", none, 1, 0, none, none, none⟩]
          [] 1000000 7).1
    ∧ (⟨"t1", "d", "done", none, 1, 0, none, none, none⟩ : Task)
      ∉ ([⟨"t1", "d", "done", none, 1, 0, none, none, none⟩] : TasksDir).filter
          (shouldArchive (1000000 - 7 * 86400)) :=
  (archive_done_spec [⟨"t1", "d", "done", none, 1, 0, none, none, none⟩]
    [] 1000000 7).2.2.1 ⟨"t1", "d", "done", none, 1, 0, none, none, none⟩
    (by decide) rfl

end ClaudeDrive
